import Mathlib

/-!
# Verification of the `narrate` request handler

Shallow embedding of `src/api/narrate.js` (final revision): the text
canonicalizer `normalizeText`, the content identifier `digestN` (SHA-256,
hex, truncated), the filename sanitizer `safeName`, the existence probe
`objectExists`, the access-URL resolver `getAccessUrl`, and the request
orchestrator `handler`.

JavaScript strings are modelled as `String`/`List Char`; the global regex
replacements of the source are modelled as left-to-right single-pass
functions with the same semantics.  External HTTP calls (`fetch`) are
modelled as oracle values (`FetchResult`): a call either rejects with a
message or resolves with a status code.  The handler additionally returns
the list of external calls it performed, so that "the synthesis service is
never invoked" is expressible.
-/

namespace Narrate

/-! ## JavaScript string primitives -/

/-- The character set removed by JavaScript `String.prototype.trim`:
ECMAScript WhiteSpace (TAB, VT, FF, SP, NBSP, ZWNBSP and the Unicode
space separators) together with the LineTerminator set (LF, CR, LS, PS). -/
def isJsWhitespace (c : Char) : Bool :=
  c == ' ' || c == '\t' || c == '\n' || c == '\r' || c == '\x0b' || c == '\x0c'
  || c.toNat == 0xA0 || c.toNat == 0x1680
  || (0x2000 ≤ c.toNat && c.toNat ≤ 0x200A)
  || c.toNat == 0x2028 || c.toNat == 0x2029 || c.toNat == 0x202F
  || c.toNat == 0x205F || c.toNat == 0x3000 || c.toNat == 0xFEFF

/-- JavaScript `.trim()` on a character list: drop leading and trailing
whitespace. -/
def trimL (l : List Char) : List Char :=
  ((l.dropWhile isJsWhitespace).reverse.dropWhile isJsWhitespace).reverse

/-- JavaScript `.trim()`. -/
def jsTrim (s : String) : String :=
  ⟨trimL s.data⟩

/-- Model of `.replace(/\r\n/g, '\n')`: one left-to-right pass replacing
each (non-overlapping) CRLF pair by LF. -/
def crlfToLf : List Char → List Char
  | [] => []
  | [c] => [c]
  | c :: d :: rest =>
    if c = '\r' ∧ d = '\n' then '\n' :: crlfToLf rest
    else c :: crlfToLf (d :: rest)

/-- The character class `[ \t]` of the source's space-collapsing regex. -/
def isSpaceTab (c : Char) : Bool :=
  c == ' ' || c == '\t'

/-- Model of `.replace(/[ \t]+/g, ' ')`: each maximal run of spaces/tabs
becomes one space.  The flag records whether we are inside a run whose
replacement space has already been emitted. -/
def collapseST : Bool → List Char → List Char
  | _, [] => []
  | inRun, c :: rest =>
    if isSpaceTab c then
      (if inRun then [] else [' ']) ++ collapseST true rest
    else
      c :: collapseST false rest

/-- Model of `.replace(/\n{3,}/g, '\n\n')`: each maximal run of `k ≥ 3`
newlines becomes exactly two, i.e. every newline run is capped at two.
The counter is the number of newlines already emitted for the current
run. -/
def collapseNL : Nat → List Char → List Char
  | _, [] => []
  | k, c :: rest =>
    if c = '\n' then
      (if k < 2 then ['\n'] else []) ++ collapseNL (k + 1) rest
    else
      c :: collapseNL 0 rest

/-- The function `normalizeText` of the source, on character lists: trim,
CRLF→LF, collapse space/tab runs, cap newline runs at two. -/
def normalizeTextL (l : List Char) : List Char :=
  collapseNL 0 (collapseST false (crlfToLf (trimL l)))

/-- The function `normalizeText` of `src/api/narrate.js` (for string
arguments; the `String(s || '')` coercion of the source is the identity
there). -/
def normalizeText (s : String) : String :=
  ⟨normalizeTextL s.data⟩

/-- The character class `[\w\-]` (no Unicode flag): ASCII letters, digits,
underscore, hyphen. -/
def isWordDash (c : Char) : Bool :=
  ('A' ≤ c && c ≤ 'Z') || ('a' ≤ c && c ≤ 'z') || ('0' ≤ c && c ≤ '9')
  || c == '_' || c == '-'

/-- Model of `.replace(/[^\w\-]+/g, '_')`: each maximal run of characters
outside the class becomes a single underscore. -/
def collapseNW : Bool → List Char → List Char
  | _, [] => []
  | inRun, c :: rest =>
    if isWordDash c then
      c :: collapseNW false rest
    else
      (if inRun then [] else ['_']) ++ collapseNW true rest

/-- Model of `.replace(/_+/g, '_')`: each maximal run of underscores
becomes one. -/
def collapseUS : Bool → List Char → List Char
  | _, [] => []
  | inRun, c :: rest =>
    if c = '_' then
      (if inRun then [] else ['_']) ++ collapseUS true rest
    else
      c :: collapseUS false rest

/-- The combining-diacritics range U+0300 to U+036F stripped by
`safeName` after NFD normalization. -/
def isCombining (c : Char) : Bool :=
  0x300 ≤ c.toNat && c.toNat ≤ 0x36F

/-- The function `safeName` of the source.  Its `normalize('NFD')` step is
a JavaScript builtin (outside the repository); it is passed in as the
function `nfd`, and every theorem below holds for an arbitrary `nfd`. -/
def safeName (nfd : String → String) (s : String) : String :=
  ⟨(collapseUS false (collapseNW false
      (trimL (((nfd s).data.filter (fun c => !isCombining c)))))).take 120⟩

/-! ## SHA-256 (`node:crypto` `createHash('sha256')`, hex digest)

32-bit words are `Nat` values below `2 ^ 32`; every operation reduces
modulo `2 ^ 32` explicitly. -/

/-- Reduce modulo `2 ^ 32`. -/
def u32 (x : Nat) : Nat := x % 4294967296

/-- 32-bit right rotation. -/
def rotr32 (n x : Nat) : Nat :=
  u32 ((x >>> n) ||| (x <<< (32 - n)))

def bigSigma0 (x : Nat) : Nat := rotr32 2 x ^^^ rotr32 13 x ^^^ rotr32 22 x

def bigSigma1 (x : Nat) : Nat := rotr32 6 x ^^^ rotr32 11 x ^^^ rotr32 25 x

def smallSigma0 (x : Nat) : Nat := rotr32 7 x ^^^ rotr32 18 x ^^^ (x >>> 3)

def smallSigma1 (x : Nat) : Nat := rotr32 17 x ^^^ rotr32 19 x ^^^ (x >>> 10)

def chFn (x y z : Nat) : Nat := (x &&& y) ^^^ ((x ^^^ 4294967295) &&& z)

def majFn (x y z : Nat) : Nat := (x &&& y) ^^^ (x &&& z) ^^^ (y &&& z)

/-- The 64 SHA-256 round constants. -/
def sha256K : List Nat :=
  [1116352408, 1899447441, 3049323471, 3921009573, 961987163,
   1508970993, 2453635748, 2870763221, 3624381080, 310598401,
   607225278, 1426881987, 1925078388, 2162078206, 2614888103,
   3248222580, 3835390401, 4022224774, 264347078, 604807628,
   770255983, 1249150122, 1555081692, 1996064986, 2554220882,
   2821834349, 2952996808, 3210313671, 3336571891, 3584528711,
   113926993, 338241895, 666307205, 773529912, 1294757372,
   1396182291, 1695183700, 1986661051, 2177026350, 2456956037,
   2730485921, 2820302411, 3259730800, 3345764771, 3516065817,
   3600352804, 4094571909, 275423344, 430227734, 506948616,
   659060556, 883997877, 958139571, 1322822218, 1537002063,
   1747873779, 1955562222, 2024104815, 2227730452, 2361852424,
   2428436474, 2756734187, 3204031479, 3329325298]

/-- The initial SHA-256 hash state. -/
def sha256H0 : List Nat :=
  [1779033703, 3144134277, 1013904242, 2773480762, 1359893119,
   2600822924, 528734635, 1541459225]

/-- SHA-256 padding: append `0x80`, zeros, and the 64-bit big-endian bit
length, reaching a multiple of 64 bytes. -/
def sha256Pad (msg : List Nat) : List Nat :=
  let len := msg.length
  let zeros := (119 - len % 64) % 64
  msg ++ [0x80] ++ List.replicate zeros 0 ++
    (List.range 8).map (fun i => ((8 * len) >>> (8 * (7 - i))) % 256)

/-- Split a (padded) byte list into 64-byte blocks. -/
def chunks64 (l : List Nat) : List (List Nat) :=
  if l = [] then [] else l.take 64 :: chunks64 (l.drop 64)
termination_by l.length
decreasing_by
  rename_i h
  have : 0 < l.length := List.length_pos.mpr h
  simp only [List.length_drop]
  omega

/-- The 16 initial 32-bit big-endian words of a 64-byte block. -/
def wordsOfBlock (b : List Nat) : List Nat :=
  (List.range 16).map (fun j =>
    b.getD (4 * j) 0 * 16777216 + b.getD (4 * j + 1) 0 * 65536 +
    b.getD (4 * j + 2) 0 * 256 + b.getD (4 * j + 3) 0)

/-- Extend the 16-word schedule by `k` further words. -/
def extendSchedule : List Nat → Nat → List Nat
  | ws, 0 => ws
  | ws, k + 1 =>
    let t := ws.length
    extendSchedule
      (ws ++ [u32 (smallSigma1 (ws.getD (t - 2) 0) + ws.getD (t - 7) 0 +
                   smallSigma0 (ws.getD (t - 15) 0) + ws.getD (t - 16) 0)]) k

/-- One SHA-256 compression round on the 8-word working state. -/
def sha256Round (st : List Nat) (kt wt : Nat) : List Nat :=
  let a := st.getD 0 0
  let b := st.getD 1 0
  let c := st.getD 2 0
  let d := st.getD 3 0
  let e := st.getD 4 0
  let f := st.getD 5 0
  let g := st.getD 6 0
  let h := st.getD 7 0
  let t1 := u32 (h + bigSigma1 e + chFn e f g + kt + wt)
  let t2 := u32 (bigSigma0 a + majFn a b c)
  [u32 (t1 + t2), a, b, c, u32 (d + t1), e, f, g]

/-- Compress one 64-byte block into the hash state. -/
def sha256Block (st : List Nat) (b : List Nat) : List Nat :=
  let ws := extendSchedule (wordsOfBlock b) 48
  let fin := (sha256K.zip ws).foldl (fun s kw => sha256Round s kw.1 kw.2) st
  List.zipWith (fun x y => u32 (x + y)) st fin

/-- SHA-256 of a byte list, as the 32-byte digest. -/
def sha256Bytes (msg : List Nat) : List Nat :=
  let fin := (chunks64 (sha256Pad msg)).foldl sha256Block sha256H0
  (fin.map (fun w => [(w >>> 24) % 256, (w >>> 16) % 256, (w >>> 8) % 256, w % 256])).flatten

/-- UTF-8 encoding of one character (`update(s)` hashes the UTF-8 bytes). -/
def utf8Char (c : Char) : List Nat :=
  let n := c.toNat
  if n < 128 then [n]
  else if n < 2048 then [192 + n / 64, 128 + n % 64]
  else if n < 65536 then [224 + n / 4096, 128 + (n / 64) % 64, 128 + n % 64]
  else [240 + n / 262144, 128 + (n / 4096) % 64, 128 + (n / 64) % 64, 128 + n % 64]

/-- UTF-8 bytes of a string. -/
def utf8Bytes (s : String) : List Nat :=
  (s.data.map utf8Char).flatten

/-- A nibble as a lowercase hex character. -/
def hexDigit (n : Nat) : Char :=
  "0123456789abcdef".data.getD (n % 16) '0'

/-- Lowercase hex rendering of a byte list. -/
def bytesToHex (bs : List Nat) : String :=
  ⟨(bs.map (fun b => [hexDigit (b / 16), hexDigit b])).flatten⟩

/-- The function `digestN` of the source: SHA-256 of the UTF-8 bytes, hex,
first `n` characters (`.slice(0, n)`). -/
def digestN (s : String) (n : Nat) : String :=
  (bytesToHex (sha256Bytes (utf8Bytes s))).take n

end Narrate

namespace Narrate

/-! ## External-call outcomes and the request/response model -/

/-- Outcome of one `await fetch(...)`: the promise either rejects (carrying
the error's `message`) or resolves with an HTTP status code. -/
inductive FetchResult where
  | err (msg : String) : FetchResult
  | resp (status : Nat) : FetchResult
deriving DecidableEq

/-- The `ok` flag of a Fetch API response: status in 200–299. -/
def respOk (status : Nat) : Bool :=
  200 ≤ status && status ≤ 299

/-- The distinct external calls the handler can perform. -/
inductive Call where
  | probeHeadPub
  | probeRangePub
  | probeRangePriv
  | sign
  | tts
  | upload
deriving DecidableEq

/-- Oracle giving the outcome of each external call the handler might make
during one request: the existence probes, the signed-URL request (with the
`signedURL`/`signedUrl` field of its parsed JSON body, `none` for a parse
failure, a missing field or a non-string value), the TTS call (with the
diagnostic body text and audio bytes), and the upload. -/
structure Fetches where
  probeHead : FetchResult
  probeRange : FetchResult
  probePriv : FetchResult
  sign : FetchResult
  signField : Option String
  tts : FetchResult
  ttsDetail : String
  ttsBytes : List Nat
  upload : FetchResult
  uploadDetail : String
deriving DecidableEq

/-- The environment configuration read by the handler; each variable is
absent (`none`) or a string. -/
structure Config where
  elevenApiKey : Option String
  elevenVoiceId : Option String
  supabaseUrl : Option String
  supabaseServiceRoleKey : Option String
  bucket : Option String
  bucketIsPublic : Option String
deriving DecidableEq

/-- One incoming HTTP request: the method and the JSON body fields. -/
structure Request where
  method : String
  title : Option String
  campaign : Option String
  text : Option String
  voiceId : Option String
deriving DecidableEq

/-- The JSON response produced by the handler: the HTTP status and the body
fields, each `none` when the body omits it. -/
structure Response where
  status : Nat
  ok : Option Bool := none
  id : Option String := none
  url : Option String := none
  filename : Option String := none
  bytes : Option Nat := none
  error : Option String := none
  detail : Option String := none
  statusField : Option String := none
  hint : Option String := none
  allow : Option String := none
deriving DecidableEq

/-- JavaScript truthiness of a possibly-absent string: `!x` holds exactly
on `undefined` and the empty string. -/
def truthy : Option String → Bool
  | none => false
  | some s => !(s == "")

/-- JavaScript `a || dflt` for a possibly-absent string `a`. -/
def jsOr (a : Option String) (dflt : String) : String :=
  match a with
  | some s => if s == "" then dflt else s
  | none => dflt

/-- The string value of a field (`String(x)`; an absent field would
stringify to `"undefined"`, though every use below is guarded). -/
def valOf : Option String → String
  | some s => s
  | none => "undefined"

/-- Derived configuration `BUCKET = process.env.BUCKET || 'audio'`. -/
def bucketOf (cfg : Config) : String := jsOr cfg.bucket "audio"

/-- ASCII case mapping of `.toLowerCase()` (the configuration flag values
compared here are ASCII). -/
def asciiLower (c : Char) : Char :=
  if 'A' ≤ c ∧ c ≤ 'Z' then Char.ofNat (c.toNat + 32) else c

/-- JavaScript `.toLowerCase()` on the configuration flag. -/
def jsToLower (s : String) : String := ⟨s.data.map asciiLower⟩

/-- Derived configuration `IS_PUBLIC_BUCKET`: the bucket-visibility flag,
`'true'` by default, compared case-insensitively. -/
def bucketPublic (cfg : Config) : Bool :=
  jsToLower (jsOr cfg.bucketIsPublic "true") == "true"

/-- The configuration guard of the handler: all four required variables
are truthy. -/
def configOk (cfg : Config) : Bool :=
  truthy cfg.elevenApiKey && truthy cfg.elevenVoiceId &&
  truthy cfg.supabaseUrl && truthy cfg.supabaseServiceRoleKey

/-! ## Existence probe and access-URL resolver -/

/-- The try-block of `objectExists`: in public mode a HEAD on the public
URL and, if that resolves non-ok, an anonymous minimal-range GET; in
private mode an authorized minimal-range GET.  A rejected fetch throws
(`.error`). -/
def objectExistsBody (isPublicBucket : Bool) (f : Fetches) : Except String Bool :=
  if isPublicBucket then
    match f.probeHead with
    | .err m => .error m
    | .resp s =>
      if respOk s then .ok true
      else
        match f.probeRange with
        | .err m => .error m
        | .resp s2 => if respOk s2 || s2 == 206 then .ok true else .ok false
  else
    match f.probePriv with
    | .err m => .error m
    | .resp s => if respOk s || s == 206 then .ok true else .ok false

/-- The function `objectExists` of the source: its try/catch turns every
throw into a cache miss (`false`). -/
def objectExists (isPublicBucket : Bool) (f : Fetches) : Bool :=
  match objectExistsBody isPublicBucket f with
  | .ok b => b
  | .error _ => false

/-- The storage fetches `objectExists` performs: in public mode the HEAD
always happens and the range GET only when the HEAD resolved non-ok; in
private mode a single authorized range GET. -/
def objectExistsCalls (isPublicBucket : Bool) (f : Fetches) : List Call :=
  if isPublicBucket then
    match f.probeHead with
    | .err _ => [Call.probeHeadPub]
    | .resp s =>
      if respOk s then [Call.probeHeadPub]
      else [Call.probeHeadPub, Call.probeRangePub]
  else [Call.probeRangePriv]

/-- The deterministic public URL template of the object. -/
def publicUrlOf (supabaseUrl bucket objectPath : String) : String :=
  supabaseUrl ++ "/storage/v1/object/public/" ++ bucket ++ "/" ++ objectPath

/-- The function `getAccessUrl` of the source.  Public mode returns the
public URL template.  Private mode POSTs a sign request: on a non-success
status, a JSON parse failure, a missing `signedURL`/`signedUrl` field or an
empty one, it falls back to the public URL; the sign fetch itself is not
inside any try/catch, so its rejection propagates (`.error`). -/
def getAccessUrl (supabaseUrl bucket objectPath : String) (isPublicBucket : Bool)
    (sign : FetchResult) (signField : Option String) : Except String String :=
  let publicUrl := publicUrlOf supabaseUrl bucket objectPath
  if isPublicBucket then .ok publicUrl
  else
    match sign with
    | .err m => .error m
    | .resp s =>
      if !respOk s then .ok publicUrl
      else
        match signField with
        | some signed =>
          if signed.length != 0 then
            .ok (supabaseUrl ++ (if signed.data.head? = some '/' then "" else "/") ++ signed)
          else .ok publicUrl
        | none => .ok publicUrl

/-- The sign request `getAccessUrl` performs in private mode. -/
def accessCalls (isPublicBucket : Bool) : List Call :=
  if isPublicBucket then [] else [Call.sign]

/-! ## Identifier derivation and the orchestrator -/

/-- The effective voice `VOICE = voiceId || ELEVEN_VOICE_ID`. -/
def effVoice (cfg : Config) (req : Request) : String :=
  jsOr req.voiceId (valOf cfg.elevenVoiceId)

/-- The hash input of line 140 of the source: voice and canonical text
joined by the two-colon separator. -/
def hashInput (voice canonicalText : String) : String :=
  voice ++ "::" ++ canonicalText

/-- The canonical text of a request: `normalizeText(String(text).trim())`. -/
def canonicalTextOf (req : Request) : String :=
  normalizeText (jsTrim (valOf req.text))

/-- The content identifier of a request: `digestN` of the hash input,
truncated to 12 hex characters. -/
def requestId (cfg : Config) (req : Request) : String :=
  digestN (hashInput (effVoice cfg req) (canonicalTextOf req)) 12

/-- The physical storage path of a request's artifact. -/
def objectPathOf (cfg : Config) (req : Request) : String :=
  "cards/" ++ requestId cfg req ++ ".mp3"

/-- The suggested download filename: sanitized campaign and title and the
identifier, joined with fixed separators. -/
def niceFilenameOf (nfd : String → String) (cfg : Config) (req : Request) : String :=
  safeName nfd (valOf req.campaign) ++ "__" ++ safeName nfd (valOf req.title) ++
    "--" ++ requestId cfg req ++ ".mp3"

/-- The catch clause's message: `e?.message || 'server error'`. -/
def catchMsg (m : String) : String :=
  if m == "" then "server error" else m

/-- The exported request handler (`module.exports` of the source), as a
function of the NFD primitive, the configuration, the request and the
fetch oracle.  It returns the response together with the list of external
calls performed.  A promise rejection reaching the outer try/catch is the
500 response with the error's message. -/
def handler (nfd : String → String) (cfg : Config) (req : Request) (f : Fetches) :
    Response × List Call :=
  if req.method == "OPTIONS" then
    ({ status := 200 }, [])
  else if req.method == "GET" then
    ({ status := 200, ok := some true,
       hint := some "POST \x7btitle,campaign,text\x7d -> \x7burl\x7d" }, [])
  else if req.method != "POST" then
    ({ status := 405, ok := some false, error := some "Method not allowed",
       allow := some "POST, GET, OPTIONS" }, [])
  else if !configOk cfg then
    ({ status := 500, ok := some false,
       error := some "Missing environment variables" }, [])
  else if !(truthy req.title && truthy req.campaign && truthy req.text) then
    ({ status := 400, ok := some false,
       error := some "title, campaign, and text are required" }, [])
  else if jsTrim (valOf req.text) == "" then
    ({ status := 400, ok := some false, error := some "text must be non-empty" }, [])
  else
    let id := requestId cfg req
    let objectPath := objectPathOf cfg req
    let niceFilename := niceFilenameOf nfd cfg req
    let supabaseUrl := valOf cfg.supabaseUrl
    let isPublicBucket := bucketPublic cfg
    let bucket := bucketOf cfg
    let probeCalls := objectExistsCalls isPublicBucket f
    if objectExists isPublicBucket f then
      match getAccessUrl supabaseUrl bucket objectPath isPublicBucket f.sign f.signField with
      | .ok url =>
        ({ status := 200, ok := some true, id := some id, url := some url,
           filename := some niceFilename }, probeCalls ++ accessCalls isPublicBucket)
      | .error m =>
        ({ status := 500, ok := some false, error := some (catchMsg m) },
         probeCalls ++ accessCalls isPublicBucket)
    else
      match f.tts with
      | .err _ =>
        ({ status := 202, ok := some false, statusField := some "processing",
           id := some id, hint := some "retry with same payload" },
         probeCalls ++ [Call.tts])
      | .resp s =>
        if !respOk s then
          ({ status := s, ok := some false, error := some "ElevenLabs TTS failed",
             detail := some f.ttsDetail }, probeCalls ++ [Call.tts])
        else
          match f.upload with
          | .err m =>
            ({ status := 500, ok := some false, error := some (catchMsg m) },
             probeCalls ++ [Call.tts, Call.upload])
          | .resp us =>
            if !respOk us then
              ({ status := us, ok := some false,
                 error := some "Supabase upload failed",
                 detail := some f.uploadDetail }, probeCalls ++ [Call.tts, Call.upload])
            else
              match getAccessUrl supabaseUrl bucket objectPath isPublicBucket f.sign f.signField with
              | .ok url =>
                ({ status := 200, ok := some true, id := some id, url := some url,
                   filename := some niceFilename, bytes := some f.ttsBytes.length },
                 probeCalls ++ [Call.tts, Call.upload] ++ accessCalls isPublicBucket)
              | .error m =>
                ({ status := 500, ok := some false, error := some (catchMsg m) },
                 probeCalls ++ [Call.tts, Call.upload] ++ accessCalls isPublicBucket)

end Narrate

namespace Narrate

/-! ## Auxiliary predicates and concrete fixtures used in statements -/

/-- The head element, if any, does not satisfy `p`. -/
def headNot (p : Char → Bool) (l : List Char) : Bool :=
  match l.head? with
  | some c => !p c
  | none => true

/-- The first two elements exist and both satisfy `p`. -/
def startsTwo (p : Char → Bool) (l : List Char) : Bool :=
  match l with
  | a :: b :: _ => p a && p b
  | _ => false

/-- No two adjacent elements both satisfy `p`. -/
def noTwo (p : Char → Bool) : List Char → Bool
  | [] => true
  | [_] => true
  | a :: b :: rest => !(p a && p b) && noTwo p (b :: rest)

/-- No three adjacent elements all satisfy `p`. -/
def noThree (p : Char → Bool) : List Char → Bool
  | [] => true
  | [_] => true
  | [_, _] => true
  | a :: b :: c :: rest => !(p a && p b && p c) && noThree p (b :: c :: rest)

/-- Newline test. -/
def isNl (c : Char) : Bool := c == '\n'

/-- Tab-freedom of a character list. -/
def noTab (l : List Char) : Bool := l.all (fun c => !(c == '\t'))

/-- Underscore test. -/
def isUnderscore (c : Char) : Bool := c == '_'

/-- A probe fetch outcome that cannot witness existence: a rejection, or a
resolved status that is neither a success nor 206. -/
def probeFailing : FetchResult → Bool
  | .err _ => true
  | .resp s => !respOk s && s != 206

/-- A complete public-bucket configuration, for concrete instances. -/
def cfgPub : Config :=
  ⟨some "k", some "v", some "https://x", some "srk", none, none⟩

/-- A complete private-bucket configuration, for concrete instances. -/
def cfgPriv : Config :=
  ⟨some "k", some "v", some "https://x", some "srk", none, some "false"⟩

/-- A well-formed POST request, for concrete instances. -/
def reqHello : Request :=
  ⟨"POST", some "Card A", some "Camp1", some "Hello world", none⟩

/-- A second well-formed POST request: same text and voice as `reqHello`,
different title and campaign. -/
def reqHello2 : Request :=
  ⟨"POST", some "Card B", some "Camp2", some "Hello world", none⟩

/-- Fetch outcomes for which every call succeeds and the public HEAD probe
finds the object. -/
def fetchesHit : Fetches :=
  ⟨.resp 200, .resp 200, .resp 206, .resp 200, some "/sgn", .resp 200, "",
   [1, 2, 3], .resp 200, ""⟩

/-- Fetch outcomes for which the probes miss and the TTS fetch rejects
(timeout/abort). -/
def fetchesMissTtsAbort : Fetches :=
  ⟨.resp 404, .resp 404, .resp 404, .resp 200, some "/sgn", .err "TTS timeout",
   "", [], .resp 200, ""⟩

/-- Fetch outcomes for which the private probe finds the object but the
sign fetch rejects. -/
def fetchesHitSignErr : Fetches :=
  ⟨.resp 404, .resp 404, .resp 206, .err "boom", none, .resp 200, "", [],
   .resp 200, ""⟩

end Narrate

namespace Narrate

/-! ## Supporting lemmas -/

theorem isSpaceTab_ws {c : Char} (h : isSpaceTab c = true) : isJsWhitespace c = true := by
  simp only [isSpaceTab, Bool.or_eq_true, beq_iff_eq] at h
  rcases h with h | h <;> simp [isJsWhitespace, h]

theorem isNl_ws {c : Char} (h : isNl c = true) : isJsWhitespace c = true := by
  simp only [isNl, beq_iff_eq] at h
  simp [isJsWhitespace, h]

theorem headNot_congr (p : Char → Bool) {l₁ l₂ : List Char} (h : l₁.head? = l₂.head?) :
    headNot p l₁ = headNot p l₂ := by
  simp [headNot, h]

theorem headNot_of_prefix (p : Char → Bool) {u x : List Char} (h : u <+: x)
    (hx : headNot p x = true) : headNot p u = true := by
  obtain ⟨t, rfl⟩ := h
  cases u with
  | nil => rfl
  | cons c r => simpa [headNot] using hx

theorem noTwo_cons (p : Char → Bool) (a : Char) (l : List Char) :
    noTwo p (a :: l) = ((!(p a) || headNot p l) && noTwo p l) := by
  cases l <;> simp [noTwo, headNot, Bool.not_and]

theorem noThree_cons (p : Char → Bool) (a : Char) (l : List Char) :
    noThree p (a :: l) = ((!(p a) || !(startsTwo p l)) && noThree p l) := by
  cases l with
  | nil => simp [noThree, startsTwo]
  | cons b r => cases r <;> simp [noThree, startsTwo, Bool.not_and, Bool.or_assoc]

theorem startsTwo_false_of_headNot (p : Char → Bool) {l : List Char}
    (h : headNot p l = true) : startsTwo p l = false := by
  cases l with
  | nil => rfl
  | cons a r =>
    cases r with
    | nil => rfl
    | cons b r' =>
      simp only [headNot, List.head?_cons, Bool.not_eq_true'] at h
      simp [startsTwo, h]

theorem dropWhile_eq_self_of_headNot (p : Char → Bool) {l : List Char}
    (h : headNot p l = true) : l.dropWhile p = l := by
  cases l with
  | nil => rfl
  | cons c r =>
    simp only [headNot, List.head?_cons, Bool.not_eq_true'] at h
    simp [List.dropWhile_cons, h]

/-! crlfToLf lemmas -/

theorem crlfToLf_eq_self {l : List Char} (hr : '\r' ∉ l) : crlfToLf l = l := by
  induction l using crlfToLf.induct with
  | case1 => rfl
  | case2 c => rfl
  | case3 c d rest hcd ih =>
    exact absurd (hcd.1 ▸ List.mem_cons_self c (d :: rest)) hr
  | case4 c d rest hcd ih =>
    rw [crlfToLf, if_neg hcd, ih (fun h => hr (List.mem_cons_of_mem c h))]

theorem mem_crlfToLf {c : Char} : ∀ {l : List Char}, c ∈ crlfToLf l → c = '\n' ∨ c ∈ l := by
  intro l
  induction l using crlfToLf.induct with
  | case1 => intro h; simp [crlfToLf] at h
  | case2 d => intro h; simp [crlfToLf] at h; simp [h]
  | case3 a d rest hcd ih =>
    intro h
    rw [crlfToLf, if_pos hcd] at h
    rcases List.mem_cons.mp h with h | h
    · exact Or.inl h
    · rcases ih h with h | h
      · exact Or.inl h
      · exact Or.inr (List.mem_cons_of_mem _ (List.mem_cons_of_mem _ h))
  | case4 a d rest hcd ih =>
    intro h
    rw [crlfToLf, if_neg hcd] at h
    rcases List.mem_cons.mp h with h | h
    · exact Or.inr (h ▸ List.mem_cons_self _ _)
    · rcases ih h with h | h
      · exact Or.inl h
      · exact Or.inr (List.mem_cons_of_mem _ h)

/-! trimL lemmas -/

theorem mem_trimL {c : Char} {l : List Char} (h : c ∈ trimL l) : c ∈ l := by
  simp only [trimL, List.mem_reverse] at h
  have h2 := (List.dropWhile_sublist isJsWhitespace).mem h
  rw [List.mem_reverse] at h2
  exact (List.dropWhile_sublist isJsWhitespace).mem h2

theorem trimL_reverse_headNot (l : List Char) :
    headNot isJsWhitespace (trimL l).reverse = true := by
  rw [trimL, List.reverse_reverse]
  have := List.head?_dropWhile_not isJsWhitespace ((l.dropWhile isJsWhitespace).reverse)
  revert this
  cases h : ((l.dropWhile isJsWhitespace).reverse.dropWhile isJsWhitespace).head? with
  | none => intro _; simp [headNot, h]
  | some c => intro hc; simp [headNot, h, hc]

theorem trimL_prefix_of_dropWhile (l : List Char) : trimL l <+: l.dropWhile isJsWhitespace := by
  rw [trimL]
  have hs := List.dropWhile_suffix (l := (l.dropWhile isJsWhitespace).reverse) isJsWhitespace
  have := hs.reverse
  rwa [List.reverse_reverse] at this

theorem trimL_headNot (l : List Char) : headNot isJsWhitespace (trimL l) = true := by
  refine headNot_of_prefix _ (trimL_prefix_of_dropWhile l) ?_
  have := List.head?_dropWhile_not isJsWhitespace l
  revert this
  cases h : (l.dropWhile isJsWhitespace).head? with
  | none => intro _; simp [headNot, h]
  | some c => intro hc; simp [headNot, h, hc]

theorem trimL_eq_self {l : List Char} (h1 : headNot isJsWhitespace l = true)
    (h2 : headNot isJsWhitespace l.reverse = true) : trimL l = l := by
  rw [trimL, dropWhile_eq_self_of_headNot _ h1, dropWhile_eq_self_of_headNot _ h2,
    List.reverse_reverse]

theorem collapseST_cons (k : Bool) (a : Char) (rest : List Char) :
    collapseST k (a :: rest) =
      if isSpaceTab a then (if k then [] else [' ']) ++ collapseST true rest
      else a :: collapseST false rest := by
  rfl

theorem mem_collapseST {c : Char} : ∀ (l : List Char) (k : Bool),
    c ∈ collapseST k l → c = ' ' ∨ c ∈ l := by
  intro l
  induction l with
  | nil => intro k h; simp [collapseST] at h
  | cons a rest ih =>
    intro k h
    rw [collapseST_cons] at h
    by_cases hst : isSpaceTab a = true
    · rw [if_pos hst] at h
      rcases List.mem_append.mp h with h | h
      · cases k with
        | true => simp at h
        | false => simp at h; exact Or.inl h
      · rcases ih true h with h | h
        · exact Or.inl h
        · exact Or.inr (List.mem_cons_of_mem _ h)
    · rw [if_neg hst] at h
      rcases List.mem_cons.mp h with h | h
      · exact Or.inr (h ▸ List.mem_cons_self _ _)
      · rcases ih false h with h | h
        · exact Or.inl h
        · exact Or.inr (List.mem_cons_of_mem _ h)

theorem collapseST_noTab : ∀ (l : List Char) (k : Bool), noTab (collapseST k l) = true := by
  intro l
  induction l with
  | nil => intro k; rfl
  | cons a rest ih =>
    intro k
    rw [collapseST_cons]
    by_cases hst : isSpaceTab a = true
    · rw [if_pos hst]
      cases k with
      | true => simpa [noTab] using ih true
      | false =>
        have := ih true
        simp only [noTab, List.all_eq_true] at this ⊢
        intro x hx
        rcases List.mem_append.mp hx with hx | hx
        · simp at hx; simp [hx]
        · exact this x hx
    · rw [if_neg hst]
      have hna : ¬(a == '\t') = true := by
        intro hb
        rw [beq_iff_eq] at hb
        subst hb
        simp [isSpaceTab] at hst
      have := ih false
      simp only [noTab, List.all_eq_true] at this ⊢
      intro x hx
      rcases List.mem_cons.mp hx with hx | hx
      · subst hx; simpa using hna
      · exact this x hx

theorem collapseST_shape : ∀ l : List Char,
    (∀ k, noTwo isSpaceTab (collapseST k l) = true) ∧
    headNot isSpaceTab (collapseST true l) = true := by
  intro l
  induction l with
  | nil => exact ⟨fun k => rfl, rfl⟩
  | cons a rest ih =>
    by_cases hst : isSpaceTab a = true
    · constructor
      · intro k
        rw [collapseST_cons, if_pos hst]
        cases k with
        | true => simpa using ih.1 true
        | false =>
          rw [if_neg (by simp), List.singleton_append, noTwo_cons]
          simp [ih.1 true, ih.2]
      · rw [collapseST_cons, if_pos hst]
        simpa using ih.2
    · have hh : headNot isSpaceTab (a :: collapseST false rest) = true := by
        simp [headNot, hst]
      constructor
      · intro k
        rw [collapseST_cons, if_neg hst, noTwo_cons]
        simp [ih.1 false, hst]
      · rw [collapseST_cons, if_neg hst]
        exact hh

theorem collapseST_false_head {l : List Char} (h : headNot isJsWhitespace l = true) :
    headNot isJsWhitespace (collapseST false l) = true := by
  cases l with
  | nil => rfl
  | cons a rest =>
    simp only [headNot, List.head?_cons, Bool.not_eq_true'] at h
    have hst : isSpaceTab a = false := by
      cases hs : isSpaceTab a
      · rfl
      · exact absurd (isSpaceTab_ws hs) (by simp [h])
    rw [collapseST_cons, if_neg (by simp [hst])]
    simp [headNot, h]

theorem collapseST_getLast : ∀ (l : List Char) (k : Bool) {c : Char},
    l.getLast? = some c → isSpaceTab c = false → (collapseST k l).getLast? = some c := by
  intro l
  induction l with
  | nil => intro k c h; simp at h
  | cons a rest ih =>
    intro k c h hc
    cases rest with
    | nil =>
      simp only [List.getLast?_singleton, Option.some.injEq] at h
      subst h
      rw [collapseST_cons, if_neg (by simp [hc])]
      rfl
    | cons b r =>
      rw [List.getLast?_cons_cons] at h
      have hy := ih (k := true) h hc
      have hy' := ih (k := false) h hc
      have hne : collapseST true (b :: r) ≠ [] := by
        intro h0; rw [h0] at hy; simp at hy
      rw [collapseST_cons]
      by_cases hst : isSpaceTab a = true
      · rw [if_pos hst]
        cases k with
        | true => simpa using hy
        | false => rw [List.getLast?_append_of_ne_nil _ hne]; exact hy
      · rw [if_neg hst]
        have hne' : collapseST false (b :: r) ≠ [] := by
          intro h0; rw [h0] at hy'; simp at hy'
        have : (a :: collapseST false (b :: r)).getLast? = (collapseST false (b :: r)).getLast? := by
          cases hcc : collapseST false (b :: r) with
          | nil => exact absurd hcc hne'
          | cons x xs => rw [List.getLast?_cons_cons]
        rw [this]
        exact hy'

theorem collapseNL_cons (k : Nat) (a : Char) (rest : List Char) :
    collapseNL k (a :: rest) =
      if a = '\n' then (if k < 2 then ['\n'] else []) ++ collapseNL (k + 1) rest
      else a :: collapseNL 0 rest := rfl

theorem mem_collapseNL {c : Char} : ∀ (l : List Char) (k : Nat),
    c ∈ collapseNL k l → c = '\n' ∨ c ∈ l := by
  intro l
  induction l with
  | nil => intro k h; simp [collapseNL] at h
  | cons a rest ih =>
    intro k h
    rw [collapseNL_cons] at h
    by_cases ha : a = '\n'
    · rw [if_pos ha] at h
      rcases List.mem_append.mp h with h | h
      · by_cases hk : k < 2
        · rw [if_pos hk] at h; simp at h; exact Or.inl h
        · rw [if_neg hk] at h; simp at h
      · rcases ih (k + 1) h with h | h
        · exact Or.inl h
        · exact Or.inr (List.mem_cons_of_mem _ h)
    · rw [if_neg ha] at h
      rcases List.mem_cons.mp h with h | h
      · exact Or.inr (h ▸ List.mem_cons_self _ _)
      · rcases ih 0 h with h | h
        · exact Or.inl h
        · exact Or.inr (List.mem_cons_of_mem _ h)

theorem collapseNL_zero_head (l : List Char) : (collapseNL 0 l).head? = l.head? := by
  cases l with
  | nil => rfl
  | cons a rest =>
    rw [collapseNL_cons]
    by_cases ha : a = '\n'
    · rw [if_pos ha, if_pos (by norm_num), List.singleton_append]
      simp [ha]
    · rw [if_neg ha]; simp

theorem collapseNL_noTab_pres {l : List Char} (h : noTab l = true) (k : Nat) :
    noTab (collapseNL k l) = true := by
  simp only [noTab, List.all_eq_true] at h ⊢
  intro x hx
  rcases mem_collapseNL l k hx with hx | hx
  · subst hx; decide
  · exact h x hx

theorem collapseNL_noTwo_pres {l : List Char} (h : noTwo isSpaceTab l = true) :
    ∀ k, noTwo isSpaceTab (collapseNL k l) = true := by
  induction l with
  | nil => intro k; rfl
  | cons a rest ih =>
    intro k
    rw [noTwo_cons, Bool.and_eq_true] at h
    obtain ⟨h1, h2⟩ := h
    rw [collapseNL_cons]
    by_cases ha : a = '\n'
    · rw [if_pos ha]
      by_cases hk : k < 2
      · rw [if_pos hk, List.singleton_append, noTwo_cons]
        have hnl : isSpaceTab '\n' = false := by decide
        simp [ih h2 (k + 1), hnl]
      · rw [if_neg hk, List.nil_append]
        exact ih h2 (k + 1)
    · rw [if_neg ha, noTwo_cons]
      have hh : headNot isSpaceTab (collapseNL 0 rest) = headNot isSpaceTab rest :=
        headNot_congr _ (collapseNL_zero_head rest)
      rw [hh, Bool.and_eq_true]
      exact ⟨h1, ih h2 0⟩

theorem collapseNL_caps : ∀ l : List Char,
    (∀ k, 2 ≤ k → headNot isNl (collapseNL k l) = true) ∧
    startsTwo isNl (collapseNL 1 l) = false ∧
    (∀ k, noThree isNl (collapseNL k l) = true) := by
  intro l
  induction l with
  | nil => exact ⟨fun k hk => rfl, rfl, fun k => rfl⟩
  | cons a rest ih =>
    obtain ⟨iha, ihb, ihc⟩ := ih
    by_cases ha : a = '\n'
    · subst ha
      refine ⟨?_, ?_, ?_⟩
      · intro k hk
        rw [collapseNL_cons, if_pos rfl, if_neg (by omega), List.nil_append]
        exact iha (k + 1) (by omega)
      · rw [collapseNL_cons, if_pos rfl, if_pos (by norm_num), List.singleton_append]
        have h2 := iha (1 + 1) (by norm_num)
        cases hc : collapseNL (1 + 1) rest with
        | nil => rfl
        | cons x xs =>
          rw [hc] at h2
          simp only [headNot, List.head?_cons, Bool.not_eq_true'] at h2
          simp [startsTwo, h2]
      · intro k
        rcases k with _ | _ | k
        · rw [collapseNL_cons, if_pos rfl, if_pos (by norm_num), List.singleton_append,
            noThree_cons]
          simp [ihb, ihc (0 + 1)]
        · rw [collapseNL_cons, if_pos rfl, if_pos (by norm_num), List.singleton_append,
            noThree_cons]
          have h2 := iha (1 + 1) (by norm_num)
          have hst := startsTwo_false_of_headNot isNl h2
          simp [hst, ihc (1 + 1)]
        · rw [collapseNL_cons, if_pos rfl, if_neg (by omega), List.nil_append]
          exact ihc (k + 2 + 1)
    · refine ⟨?_, ?_, ?_⟩
      · intro k hk
        rw [collapseNL_cons, if_neg ha]
        simp [headNot, isNl, ha]
      · rw [collapseNL_cons, if_neg ha]
        cases hc : collapseNL 0 rest with
        | nil => simp [startsTwo]
        | cons x xs => simp [startsTwo, isNl, ha]
      · intro k
        rw [collapseNL_cons, if_neg ha, noThree_cons]
        simp [isNl, ha, ihc 0]

theorem collapseNL_getLast : ∀ (l : List Char) (k : Nat) {c : Char},
    l.getLast? = some c → isNl c = false → (collapseNL k l).getLast? = some c := by
  intro l
  induction l with
  | nil => intro k c h; simp at h
  | cons a rest ih =>
    intro k c h hc
    cases rest with
    | nil =>
      simp only [List.getLast?_singleton, Option.some.injEq] at h
      subst h
      have ha : ¬(a = '\n') := by
        intro hh; rw [hh] at hc; simp [isNl] at hc
      rw [collapseNL_cons, if_neg ha]
      rfl
    | cons b r =>
      rw [List.getLast?_cons_cons] at h
      have hy := ih (k := k + 1) h hc
      have hy0 := ih (k := 0) h hc
      have hne : collapseNL (k + 1) (b :: r) ≠ [] := by
        intro h0; rw [h0] at hy; simp at hy
      have hne0 : collapseNL 0 (b :: r) ≠ [] := by
        intro h0; rw [h0] at hy0; simp at hy0
      rw [collapseNL_cons]
      by_cases ha : a = '\n'
      · rw [if_pos ha]
        by_cases hk : k < 2
        · rw [if_pos hk, List.singleton_append]
          cases hcc : collapseNL (k + 1) (b :: r) with
          | nil => exact absurd hcc hne
          | cons x xs => rw [List.getLast?_cons_cons, ← hcc]; exact hy
        · rw [if_neg hk, List.nil_append]; exact hy
      · rw [if_neg ha]
        cases hcc : collapseNL 0 (b :: r) with
        | nil => exact absurd hcc hne0
        | cons x xs => rw [List.getLast?_cons_cons, ← hcc]; exact hy0

theorem collapseST_id : ∀ l : List Char, noTab l = true → noTwo isSpaceTab l = true →
    (collapseST false l = l ∧ (headNot isSpaceTab l = true → collapseST true l = l)) := by
  intro l
  induction l with
  | nil => exact fun _ _ => ⟨rfl, fun _ => rfl⟩
  | cons a rest ih =>
    intro hTab hTwo
    have hTab' : noTab rest = true := by
      simp only [noTab, List.all_eq_true] at hTab ⊢
      exact fun x hx => hTab x (List.mem_cons_of_mem _ hx)
    rw [noTwo_cons, Bool.and_eq_true] at hTwo
    obtain ⟨h1, hTwo'⟩ := hTwo
    obtain ⟨ihf, iht⟩ := ih hTab' hTwo'
    by_cases hst : isSpaceTab a = true
    · have hat : ¬(a == '\t') = true := by
        simp only [noTab, List.all_eq_true] at hTab
        simpa using hTab a (List.mem_cons_self _ _)
      have ha : a = ' ' := by
        simp only [isSpaceTab, Bool.or_eq_true, beq_iff_eq] at hst
        rcases hst with h | h
        · exact h
        · exact absurd (by simp [h]) hat
      have hhr : headNot isSpaceTab rest = true := by
        rw [Bool.or_eq_true] at h1
        rcases h1 with h | h
        · rw [Bool.not_eq_true'] at h
          rw [h] at hst; simp at hst
        · exact h
      constructor
      · rw [collapseST_cons, if_pos hst, if_neg (by simp), List.singleton_append,
          iht hhr, ha]
      · intro hh
        rw [headNot] at hh
        simp only [List.head?_cons, Bool.not_eq_true'] at hh
        rw [hh] at hst
        simp at hst
    · constructor
      · rw [collapseST_cons, if_neg hst, ihf]
      · intro _
        rw [collapseST_cons, if_neg hst, ihf]

theorem collapseNL_id : ∀ l : List Char, noThree isNl l = true →
    (collapseNL 0 l = l ∧ (startsTwo isNl l = false → collapseNL 1 l = l) ∧
     (headNot isNl l = true → collapseNL 2 l = l)) := by
  intro l
  induction l with
  | nil => exact fun _ => ⟨rfl, fun _ => rfl, fun _ => rfl⟩
  | cons a rest ih =>
    intro h3
    rw [noThree_cons, Bool.and_eq_true] at h3
    obtain ⟨hw, h3'⟩ := h3
    obtain ⟨ih0, ih1, ih2⟩ := ih h3'
    by_cases ha : a = '\n'
    · subst ha
      have hst2 : startsTwo isNl rest = false := by
        rw [Bool.or_eq_true] at hw
        rcases hw with h | h
        · simp [isNl] at h
        · simpa using h
      refine ⟨?_, ?_, ?_⟩
      · rw [collapseNL_cons, if_pos rfl, if_pos (by norm_num), List.singleton_append]
        have := ih1 hst2
        simp only [Nat.zero_add]
        rw [this]
      · intro hs2
        have hh : headNot isNl rest = true := by
          cases rest with
          | nil => rfl
          | cons b r =>
            simp only [startsTwo, isNl] at hs2
            simp only [headNot, List.head?_cons, isNl]
            simpa using hs2
        rw [collapseNL_cons, if_pos rfl, if_pos (by norm_num), List.singleton_append]
        have := ih2 hh
        norm_num
        rw [this]
      · intro hh
        simp [headNot, isNl] at hh
    · refine ⟨?_, ?_, ?_⟩
      · rw [collapseNL_cons, if_neg ha, ih0]
      · intro _
        rw [collapseNL_cons, if_neg ha, ih0]
      · intro _
        rw [collapseNL_cons, if_neg ha, ih0]

theorem normalizeTextL_idem {l : List Char} (hr : '\r' ∉ l) :
    normalizeTextL (normalizeTextL l) = normalizeTextL l := by
  set t := trimL l with ht
  set u := collapseST false t with hu
  set m := collapseNL 0 u with hm
  have hrt : '\r' ∉ t := fun h => hr (mem_trimL h)
  have hcr : crlfToLf t = t := crlfToLf_eq_self hrt
  have h1 : normalizeTextL l = m := by
    rw [normalizeTextL, ← ht, hcr, ← hu, ← hm]
  have hth : headNot isJsWhitespace t = true := trimL_headNot l
  have htlast : headNot isJsWhitespace t.reverse = true := trimL_reverse_headNot l
  have hu_noTab : noTab u = true := collapseST_noTab t false
  have hu_noTwo : noTwo isSpaceTab u = true := (collapseST_shape t).1 false
  have hm_noTab : noTab m = true := collapseNL_noTab_pres hu_noTab 0
  have hm_noTwo : noTwo isSpaceTab m = true := collapseNL_noTwo_pres hu_noTwo 0
  have hm_noThree : noThree isNl m = true := (collapseNL_caps u).2.2 0
  have hm_nor : '\r' ∉ m := by
    intro hx
    rcases mem_collapseNL u 0 hx with hx | hx
    · exact absurd hx (by decide)
    · rcases mem_collapseST t false hx with hx | hx
      · exact absurd hx (by decide)
      · exact hrt hx
  have hu_head : headNot isJsWhitespace u = true := collapseST_false_head hth
  have hm_head : headNot isJsWhitespace m = true := by
    rw [hm, headNot_congr _ (collapseNL_zero_head u)]; exact hu_head
  have hm_last : headNot isJsWhitespace m.reverse = true := by
    cases hgl : t.getLast? with
    | none =>
      have ht0 : t = [] := List.getLast?_eq_none_iff.mp hgl
      have hu0 : u = [] := by rw [hu, ht0]; rfl
      have hm0 : m = [] := by rw [hm, hu0]; rfl
      rw [hm0]; rfl
    | some c =>
      have hcw : isJsWhitespace c = false := by
        have h2 := htlast
        rw [headNot, List.head?_reverse, hgl] at h2
        simpa using h2
      have hcst : isSpaceTab c = false := by
        cases h : isSpaceTab c
        · rfl
        · exact absurd (isSpaceTab_ws h) (by simp [hcw])
      have hcnl : isNl c = false := by
        cases h : isNl c
        · rfl
        · exact absurd (isNl_ws h) (by simp [hcw])
      have hu_gl : u.getLast? = some c := collapseST_getLast t false hgl hcst
      have hm_gl : m.getLast? = some c := collapseNL_getLast u 0 hu_gl hcnl
      rw [headNot, List.head?_reverse, hm_gl]
      simpa using hcw
  have s1 : trimL m = m := trimL_eq_self hm_head hm_last
  have s2 : crlfToLf m = m := crlfToLf_eq_self hm_nor
  have s3 : collapseST false m = m := (collapseST_id m hm_noTab hm_noTwo).1
  have s4 : collapseNL 0 m = m := (collapseNL_id m hm_noThree).1
  rw [h1, normalizeTextL, s1, s2, s3, s4]
theorem collapseNW_cons (k : Bool) (a : Char) (rest : List Char) :
    collapseNW k (a :: rest) =
      if isWordDash a then a :: collapseNW false rest
      else (if k then [] else ['_']) ++ collapseNW true rest := rfl

theorem collapseUS_cons (k : Bool) (a : Char) (rest : List Char) :
    collapseUS k (a :: rest) =
      if a = '_' then (if k then [] else ['_']) ++ collapseUS true rest
      else a :: collapseUS false rest := rfl

theorem mem_collapseNW {c : Char} : ∀ (l : List Char) (k : Bool),
    c ∈ collapseNW k l → isWordDash c = true := by
  intro l
  induction l with
  | nil => intro k h; simp [collapseNW] at h
  | cons a rest ih =>
    intro k h
    rw [collapseNW_cons] at h
    by_cases hw : isWordDash a = true
    · rw [if_pos hw] at h
      rcases List.mem_cons.mp h with h | h
      · exact h ▸ hw
      · exact ih false h
    · rw [if_neg hw] at h
      rcases List.mem_append.mp h with h | h
      · cases k with
        | true => simp at h
        | false => simp at h; subst h; decide
      · exact ih true h

theorem mem_collapseUS {c : Char} : ∀ (l : List Char) (k : Bool),
    c ∈ collapseUS k l → c = '_' ∨ c ∈ l := by
  intro l
  induction l with
  | nil => intro k h; simp [collapseUS] at h
  | cons a rest ih =>
    intro k h
    rw [collapseUS_cons] at h
    by_cases hu : a = '_'
    · rw [if_pos hu] at h
      rcases List.mem_append.mp h with h | h
      · cases k with
        | true => simp at h
        | false => simp at h; exact Or.inl h
      · rcases ih true h with h | h
        · exact Or.inl h
        · exact Or.inr (List.mem_cons_of_mem _ h)
    · rw [if_neg hu] at h
      rcases List.mem_cons.mp h with h | h
      · exact Or.inr (h ▸ List.mem_cons_self _ _)
      · rcases ih false h with h | h
        · exact Or.inl h
        · exact Or.inr (List.mem_cons_of_mem _ h)

theorem collapseUS_shape : ∀ l : List Char,
    (∀ k, noTwo isUnderscore (collapseUS k l) = true) ∧
    headNot isUnderscore (collapseUS true l) = true := by
  intro l
  induction l with
  | nil => exact ⟨fun k => rfl, rfl⟩
  | cons a rest ih =>
    by_cases hu : a = '_'
    · constructor
      · intro k
        rw [collapseUS_cons, if_pos hu]
        cases k with
        | true => simpa using ih.1 true
        | false =>
          rw [if_neg (by simp), List.singleton_append, noTwo_cons]
          simp [ih.1 true, ih.2]
      · rw [collapseUS_cons, if_pos hu]
        simpa using ih.2
    · constructor
      · intro k
        rw [collapseUS_cons, if_neg hu, noTwo_cons]
        simp [ih.1 false, isUnderscore, hu]
      · rw [collapseUS_cons, if_neg hu]
        simp [headNot, isUnderscore, hu]

theorem headNot_take (p : Char → Bool) (l : List Char) (n : Nat)
    (h : headNot p l = true) : headNot p (l.take n) = true := by
  cases l <;> cases n <;> simp_all [headNot]

theorem noTwo_take (p : Char → Bool) : ∀ (l : List Char) (n : Nat),
    noTwo p l = true → noTwo p (l.take n) = true := by
  intro l
  induction l with
  | nil => intro n h; simp [List.take_nil]; rfl
  | cons a rest ih =>
    intro n h
    cases n with
    | zero => rfl
    | succ n =>
      rw [List.take_succ_cons, noTwo_cons]
      rw [noTwo_cons, Bool.and_eq_true] at h
      obtain ⟨h1, h2⟩ := h
      rw [Bool.and_eq_true]
      constructor
      · rw [Bool.or_eq_true] at h1 ⊢
        rcases h1 with h1 | h1
        · exact Or.inl h1
        · exact Or.inr (headNot_take p rest n h1)
      · exact ih n h2

theorem tts_not_mem_probe (b : Bool) (f : Fetches) :
    Call.tts ∉ objectExistsCalls b f := by
  cases b
  · simp [objectExistsCalls]
  · rcases h : f.probeHead with m | s
    · simp [objectExistsCalls, h]
    · simp only [objectExistsCalls, h]
      by_cases hr : respOk s = true <;> simp [hr]

theorem tts_not_mem_access (b : Bool) : Call.tts ∉ accessCalls b := by
  cases b <;> simp [accessCalls]

theorem sepInj (v₁ : List Char) : ∀ (v₂ t₁ t₂ : List Char), ':' ∉ v₁ → ':' ∉ v₂ →
    v₁ ++ ':' :: ':' :: t₁ = v₂ ++ ':' :: ':' :: t₂ → v₁ = v₂ ∧ t₁ = t₂ := by
  induction v₁ with
  | nil =>
    intro v₂ t₁ t₂ h₁ h₂ h
    cases v₂ with
    | nil => simp_all
    | cons c v₂ =>
      simp only [List.nil_append, List.cons_append, List.cons.injEq] at h
      rw [← h.1] at h₂
      simp at h₂
  | cons c v₁ ih =>
    intro v₂ t₁ t₂ h₁ h₂ h
    cases v₂ with
    | nil =>
      simp only [List.nil_append, List.cons_append, List.cons.injEq] at h
      rw [← h.1] at h₁
      simp at h₁
    | cons c₂ v₂ =>
      simp only [List.cons_append, List.cons.injEq] at h
      obtain ⟨rfl, h⟩ := h
      have h₁' : ':' ∉ v₁ := fun hx => h₁ (List.mem_cons_of_mem _ hx)
      have h₂' : ':' ∉ v₂ := fun hx => h₂ (List.mem_cons_of_mem _ hx)
      obtain ⟨hv, ht⟩ := ih v₂ t₁ t₂ h₁' h₂' h
      exact ⟨by rw [hv], ht⟩

/-! ## The claims -/

/-- C1 (counterexample): the claim "a probe hit always yields HTTP 200 with
`ok:true`, id, url and filename" fails as stated.  With a private bucket,
the private-range probe reporting the object present (status 206) and the
sign fetch rejecting, the handler returns 500: `getAccessUrl` has no
try/catch around the sign fetch, so the rejection reaches the outer catch.
The synthesis service is still never invoked. -/
theorem c1_counterexample :
    objectExists (bucketPublic cfgPriv) fetchesHitSignErr = true ∧
    Call.tts ∉ (handler id cfgPriv reqHello fetchesHitSignErr).2 ∧
    (handler id cfgPriv reqHello fetchesHitSignErr).1.status = 500 := by
  refine ⟨by decide, by decide, rfl⟩

/-- C1 (amended): for every POST request passing configuration and
validation for which the existence probe reports the artifact present, the
synthesis (TTS) service is never invoked, and whenever the access-URL
resolution returns a URL — always in public mode, and in private mode
whenever the sign fetch resolves — the handler returns HTTP 200 with
`ok:true`, the content identifier, the access URL and the suggested
filename, and the body omits the `bytes` field. -/
theorem c1_cache_hit_amended (nfd : String → String) (cfg : Config) (req : Request)
    (f : Fetches)
    (hm : req.method = "POST") (hc : configOk cfg = true)
    (ht : truthy req.title = true) (hca : truthy req.campaign = true)
    (htx : truthy req.text = true) (hnz : jsTrim (valOf req.text) ≠ "")
    (hhit : objectExists (bucketPublic cfg) f = true) :
    Call.tts ∉ (handler nfd cfg req f).2 ∧
    ∀ u, getAccessUrl (valOf cfg.supabaseUrl) (bucketOf cfg) (objectPathOf cfg req)
        (bucketPublic cfg) f.sign f.signField = Except.ok u →
      (handler nfd cfg req f).1 =
        { status := 200, ok := some true, id := some (requestId cfg req),
          url := some u, filename := some (niceFilenameOf nfd cfg req) } := by
  constructor
  · cases hgu : getAccessUrl (valOf cfg.supabaseUrl) (bucketOf cfg) (objectPathOf cfg req)
        (bucketPublic cfg) f.sign f.signField <;>
      simp [handler, hm, hc, ht, hca, htx, hnz, hhit, hgu, tts_not_mem_probe,
        tts_not_mem_access]
  · intro u hgu
    simp [handler, hm, hc, ht, hca, htx, hnz, hhit, hgu]

/-- C1 (witness): the amended cache-hit theorem at a concrete public-bucket
configuration, request and fetch oracle. -/
theorem c1_cache_hit_witness :
    objectExists (bucketPublic cfgPub) fetchesHit = true ∧
    Call.tts ∉ (handler id cfgPub reqHello fetchesHit).2 ∧
    (handler id cfgPub reqHello fetchesHit).1 =
      { status := 200, ok := some true, id := some (requestId cfgPub reqHello),
        url := some (publicUrlOf "https://x" "audio" (objectPathOf cfgPub reqHello)),
        filename := some (niceFilenameOf id cfgPub reqHello) } := by
  have h := c1_cache_hit_amended id cfgPub reqHello fetchesHit rfl (by decide) (by decide)
    (by decide) (by decide) (by decide) (by decide)
  exact ⟨by decide, h.1, h.2 _ rfl⟩

/-- C2: for every two requests with identical text and identical effective
voice — title and campaign arbitrary — the computed `objectPath` is the
same string, and it is `cards/{id}.mp3`, a function of the content
identifier only. -/
theorem c2_objectPath_only_id (cfg : Config) (req₁ req₂ : Request)
    (hv : effVoice cfg req₁ = effVoice cfg req₂) (ht : req₁.text = req₂.text) :
    objectPathOf cfg req₁ = objectPathOf cfg req₂ ∧
    objectPathOf cfg req₁ = "cards/" ++ requestId cfg req₁ ++ ".mp3" := by
  constructor
  · simp [objectPathOf, requestId, canonicalTextOf, hv, ht]
  · rfl

/-- C2 (witness): two concrete requests differing in title and campaign
but sharing text and voice resolve to the same object path. -/
theorem c2_objectPath_only_id_witness :
    reqHello.title ≠ reqHello2.title ∧ reqHello.campaign ≠ reqHello2.campaign ∧
    effVoice cfgPub reqHello = effVoice cfgPub reqHello2 ∧
    reqHello.text = reqHello2.text ∧
    objectPathOf cfgPub reqHello = objectPathOf cfgPub reqHello2 ∧
    objectPathOf cfgPub reqHello = "cards/" ++ requestId cfgPub reqHello ++ ".mp3" := by
  have h := c2_objectPath_only_id cfgPub reqHello reqHello2 rfl rfl
  exact ⟨by decide, by decide, rfl, rfl, h.1, h.2⟩

/-- C3 (counterexample): the claim "on any failure of the signed-URL
request, including a network error, the resolver returns the public-style
URL and never raises" fails as stated: in private mode a rejected sign
fetch propagates as an error out of `getAccessUrl` instead of returning a
URL. -/
theorem c3_counterexample :
    getAccessUrl "https://x" "audio" "cards/e.mp3" false (FetchResult.err "boom") none =
      Except.error "boom" := rfl

/-- C3 (amended): in private-bucket mode, whenever the sign fetch resolves
(with any status), `getAccessUrl` returns some URL and never raises; and on
a non-success status, a missing signed-URL field, or an empty one, it
returns exactly the deterministic public-style URL template.  Only a
rejected sign fetch (a network error) propagates as an exception. -/
theorem c3_signed_url_fallback_amended (supabaseUrl bucket objectPath : String)
    (sign : FetchResult) (signField : Option String) :
    (∀ s, sign = FetchResult.resp s → ∃ u,
        getAccessUrl supabaseUrl bucket objectPath false sign signField = Except.ok u) ∧
    (∀ s, sign = FetchResult.resp s →
      respOk s = false ∨ signField = none ∨ signField = some "" →
      getAccessUrl supabaseUrl bucket objectPath false sign signField =
        Except.ok (publicUrlOf supabaseUrl bucket objectPath)) := by
  constructor
  · rintro s rfl
    rcases hok : respOk s with _ | _
    · exact ⟨publicUrlOf supabaseUrl bucket objectPath, by simp [getAccessUrl, hok]⟩
    · rcases signField with _ | signed
      · exact ⟨publicUrlOf supabaseUrl bucket objectPath, by simp [getAccessUrl, hok]⟩
      · by_cases hlen : (signed.length != 0) = true
        · exact ⟨supabaseUrl ++ (if signed.data.head? = some '/' then "" else "/") ++ signed,
            by simp [getAccessUrl, hok, hlen]⟩
        · exact ⟨publicUrlOf supabaseUrl bucket objectPath,
            by simp only [Bool.not_eq_true] at hlen
               simp [getAccessUrl, hok, hlen]⟩
  · rintro s rfl h
    rcases h with h | h | h
    · simp [getAccessUrl, h]
    · subst h; simp [getAccessUrl]
    · subst h; simp [getAccessUrl]

/-- C3 (witness): a concrete failed sign request (status 500, no parsed
field) resolves to the public URL template. -/
theorem c3_signed_url_fallback_witness :
    (∃ u, getAccessUrl "https://x" "audio" "cards/e.mp3" false (FetchResult.resp 500) none =
      Except.ok u) ∧
    getAccessUrl "https://x" "audio" "cards/e.mp3" false (FetchResult.resp 500) none =
      Except.ok (publicUrlOf "https://x" "audio" "cards/e.mp3") :=
  ⟨(c3_signed_url_fallback_amended "https://x" "audio" "cards/e.mp3"
      (FetchResult.resp 500) none).1 500 rfl,
   (c3_signed_url_fallback_amended "https://x" "audio" "cards/e.mp3"
      (FetchResult.resp 500) none).2 500 rfl (Or.inl (by decide))⟩

/-- C4 (counterexample): the claim that the `voice :: text` concatenation
is injective on all pairs fails: a voice containing the separator makes two
distinct pairs collide. -/
theorem c4_counterexample :
    hashInput "a::b" "c" = hashInput "a" "b::c" ∧
    ¬ (("a::b" : String) = "a" ∧ ("c" : String) = "b::c") := by
  constructor
  · rfl
  · decide

/-- C4 (amended): the encoding of (voice, canonical text) into the hash
input is injective provided the voice identifiers contain no colon: equal
hash inputs force equal voices and equal texts. -/
theorem c4_hash_input_injective_amended (v₁ t₁ v₂ t₂ : String)
    (h₁ : ':' ∉ v₁.data) (h₂ : ':' ∉ v₂.data)
    (he : hashInput v₁ t₁ = hashInput v₂ t₂) : v₁ = v₂ ∧ t₁ = t₂ := by
  have hd := congrArg String.data he
  simp only [hashInput, String.data_append] at hd
  have h3 : v₁.data ++ ':' :: ':' :: t₁.data = v₂.data ++ ':' :: ':' :: t₂.data := by
    simpa using hd
  obtain ⟨hv, ht⟩ := sepInj v₁.data v₂.data t₁.data t₂.data h₁ h₂ h3
  exact ⟨String.ext hv, String.ext ht⟩

/-- C4 (witness): the amended injectivity theorem applied at concrete
colon-free voices with equal hash inputs. -/
theorem c4_hash_input_injective_witness :
    (':' ∉ ("voiceA" : String).data) ∧
    hashInput "voiceA" "some text" = hashInput "voiceA" "some text" ∧
    (("voiceA" : String) = "voiceA" ∧ ("some text" : String) = "some text") :=
  ⟨by decide, rfl,
    c4_hash_input_injective_amended "voiceA" "some text" "voiceA" "some text"
      (by decide) (by decide) rfl⟩

/-- C5 (counterexample): the claim "a request whose title is empty after
trimming is rejected with 400" fails: the code does not trim title or
campaign, so a whitespace-only title passes validation and the request
succeeds with 200. -/
theorem c5_counterexample :
    jsTrim " " = "" ∧
    (handler id cfgPub ⟨"POST", some " ", some "Camp1", some "hello", none⟩
      fetchesHit).1.status = 200 := by
  exact ⟨rfl, rfl⟩

/-- C5 (amended): a POST request (with configuration present) whose title,
campaign or text is absent or the empty string is rejected with
`400 {ok:false, error}` and no external call is made, as is one whose text
is empty after trimming; title and campaign are not trimmed, so
whitespace-only values pass validation. -/
theorem c5_validation_amended (nfd : String → String) (cfg : Config) (req : Request)
    (f : Fetches) (hm : req.method = "POST") (hc : configOk cfg = true) :
    ((truthy req.title && truthy req.campaign && truthy req.text) = false →
      (handler nfd cfg req f).1 =
        { status := 400, ok := some false,
          error := some "title, campaign, and text are required" } ∧
      (handler nfd cfg req f).2 = []) ∧
    ((truthy req.title && truthy req.campaign && truthy req.text) = true →
      jsTrim (valOf req.text) = "" →
      (handler nfd cfg req f).1 =
        { status := 400, ok := some false, error := some "text must be non-empty" } ∧
      (handler nfd cfg req f).2 = []) := by
  constructor
  · intro hv; constructor <;> simp [handler, hm, hc, hv]
  · intro hv hz; constructor <;> simp [handler, hm, hc, hv, hz]

/-- C5 (witness): a concrete request with a missing title is rejected with
400 and the required-fields message. -/
theorem c5_validation_witness :
    (truthy (none : Option String) && truthy (some "Camp1") && truthy (some "hello")) = false ∧
    (handler id cfgPub ⟨"POST", none, some "Camp1", some "hello", none⟩ fetchesHit).1 =
      { status := 400, ok := some false,
        error := some "title, campaign, and text are required" } :=
  ⟨by decide,
    ((c5_validation_amended id cfgPub ⟨"POST", none, some "Camp1", some "hello", none⟩
      fetchesHit rfl (by decide)).1 (by decide)).1⟩

/-- C6 (counterexample): canonicalization is not idempotent: on
`"a\r\r\n\nb"` the first pass leaves `"a\r\n\nb"` (the CRLF replacement
creates a new CRLF pair), and the second pass changes it again. -/
theorem c6_counterexample :
    normalizeText (normalizeText "a\r\r\n\nb") ≠ normalizeText "a\r\r\n\nb" := by
  decide

/-- C6 (amended): canonicalization is a total deterministic function
mapping the empty string to itself, and it is idempotent on every string
containing no carriage-return character; idempotence can only fail when a
CR immediately precedes a CRLF pair. -/
theorem c6_canonicalize_idempotent_amended :
    normalizeText "" = "" ∧
    ∀ s : String, '\r' ∉ s.data →
      normalizeText (normalizeText s) = normalizeText s := by
  constructor
  · rfl
  · intro s hs
    exact String.ext (by simpa [normalizeText] using normalizeTextL_idem hs)

/-- C6 (witness): idempotence at a concrete CR-free string. -/
theorem c6_canonicalize_idempotent_witness :
    ('\r' ∉ ("Hello  world\n\n\n\nbye" : String).data) ∧
    normalizeText (normalizeText "Hello  world\n\n\n\nbye") =
      normalizeText "Hello  world\n\n\n\nbye" :=
  ⟨by decide, c6_canonicalize_idempotent_amended.2 "Hello  world\n\n\n\nbye" (by decide)⟩

/-- C7: the existence probe is total and fail-open: if the probe body
throws (any rejected fetch), `objectExists` still returns `false` rather
than propagating the error; and whenever every probe fetch outcome is a
rejection or a non-success (non-206) status, the result is `false`. -/
theorem c7_probe_fail_open (b : Bool) (f : Fetches) :
    (∀ e, objectExistsBody b f = Except.error e → objectExists b f = false) ∧
    (probeFailing f.probeHead = true → probeFailing f.probeRange = true →
      probeFailing f.probePriv = true → objectExists b f = false) := by
  constructor
  · intro e he; simp [objectExists, he]
  · intro h1 h2 h3
    rcases hph : f.probeHead with m | s <;> rcases hpr : f.probeRange with m2 | s2 <;>
      rcases hpp : f.probePriv with m3 | s3 <;> cases b <;>
        simp_all [objectExists, objectExistsBody, probeFailing]

/-- C7 (witness): with every probe fetch rejecting, the probe reports
non-existence in public mode. -/
theorem c7_probe_fail_open_witness :
    probeFailing (FetchResult.err "net down") = true ∧
    objectExists true ⟨FetchResult.err "net down", FetchResult.err "net down",
      FetchResult.err "net down", FetchResult.resp 200, none, FetchResult.resp 200, "", [],
      FetchResult.resp 200, ""⟩ = false :=
  ⟨by decide,
    (c7_probe_fail_open true ⟨FetchResult.err "net down", FetchResult.err "net down",
      FetchResult.err "net down", FetchResult.resp 200, none, FetchResult.resp 200, "", [],
      FetchResult.resp 200, ""⟩).2 (by decide) (by decide) (by decide)⟩

/-- C8: on a cache miss with the TTS fetch rejecting (timeout/abort), the
handler returns HTTP 202 with `ok:false`, `status:"processing"`, the
content identifier and a retry hint; and the identifier is the one any
later request with the same text and voiceId fields would compute. -/
theorem c8_tts_timeout_processing (nfd : String → String) (cfg : Config) (req : Request)
    (f : Fetches)
    (hm : req.method = "POST") (hc : configOk cfg = true)
    (ht : truthy req.title = true) (hca : truthy req.campaign = true)
    (htx : truthy req.text = true) (hnz : jsTrim (valOf req.text) ≠ "")
    (hmiss : objectExists (bucketPublic cfg) f = false)
    (m : String) (habort : f.tts = FetchResult.err m) :
    (handler nfd cfg req f).1 =
      { status := 202, ok := some false, statusField := some "processing",
        id := some (requestId cfg req), hint := some "retry with same payload" } ∧
    ∀ req' : Request, req'.voiceId = req.voiceId → req'.text = req.text →
      requestId cfg req' = requestId cfg req := by
  constructor
  · simp [handler, hm, hc, ht, hca, htx, hnz, hmiss, habort]
  · intro req' hv htx2
    simp [requestId, effVoice, canonicalTextOf, hv, htx2]

/-- C8 (witness): the 202 processing response at a concrete cache-miss
with an aborted TTS fetch. -/
theorem c8_tts_timeout_processing_witness :
    objectExists (bucketPublic cfgPub) fetchesMissTtsAbort = false ∧
    fetchesMissTtsAbort.tts = FetchResult.err "TTS timeout" ∧
    (handler id cfgPub reqHello fetchesMissTtsAbort).1 =
      { status := 202, ok := some false, statusField := some "processing",
        id := some (requestId cfgPub reqHello), hint := some "retry with same payload" } :=
  ⟨by decide, rfl,
    (c8_tts_timeout_processing id cfgPub reqHello fetchesMissTtsAbort rfl (by decide)
      (by decide) (by decide) (by decide) (by decide) (by decide) "TTS timeout" rfl).1⟩

/-- C9: for every NFD primitive and every input string, the filename
sanitizer produces only characters in `[A-Za-z0-9_-]`, contains no slash
and no `..` substring, has no two adjacent underscores (runs of other
characters became a single underscore and repeated underscores were
collapsed), and is at most 120 characters long. -/
theorem c9_safe_name_sanitized (nfd : String → String) (s : String) :
    (∀ c ∈ (safeName nfd s).data, isWordDash c = true) ∧
    '/' ∉ (safeName nfd s).data ∧
    ¬ ['.', '.'] <:+: (safeName nfd s).data ∧
    noTwo isUnderscore (safeName nfd s).data = true ∧
    (safeName nfd s).length ≤ 120 := by
  have hdata : (safeName nfd s).data =
      (collapseUS false (collapseNW false (trimL ((nfd s).data.filter
        (fun c => !isCombining c))))).take 120 := rfl
  have hall : ∀ c ∈ (safeName nfd s).data, isWordDash c = true := by
    intro c hc
    rw [hdata] at hc
    have hc2 := List.take_subset _ _ hc
    rcases mem_collapseUS _ false hc2 with h | h
    · subst h; decide
    · exact mem_collapseNW _ false h
  refine ⟨hall, ?_, ?_, ?_, ?_⟩
  · intro hc
    exact absurd (hall '/' hc) (by decide)
  · intro hinf
    have hmem : '.' ∈ (safeName nfd s).data := hinf.subset (by simp)
    exact absurd (hall '.' hmem) (by decide)
  · rw [hdata]
    exact noTwo_take isUnderscore _ 120 ((collapseUS_shape _).1 false)
  · show (safeName nfd s).data.length ≤ 120
    rw [hdata]
    exact List.length_take_le _ _

/-- C10: for every POST request handled while any of the four required
configuration values is absent (or empty), the handler answers
`500 {ok:false, error}` with no external call — regardless of the request
body, so configuration errors take precedence over client input errors. -/
theorem c10_config_error_precedence (nfd : String → String) (cfg : Config) (req : Request)
    (f : Fetches) (hm : req.method = "POST") (hc : configOk cfg = false) :
    (handler nfd cfg req f).1 =
      { status := 500, ok := some false, error := some "Missing environment variables" } ∧
    (handler nfd cfg req f).2 = [] := by
  constructor <;> simp [handler, hm, hc]

/-- C10 (witness): a request that is also missing every body field still
receives 500 (not 400) when the synthesis API key is absent. -/
theorem c10_config_error_precedence_witness :
    configOk ⟨none, some "v", some "https://x", some "srk", none, none⟩ = false ∧
    (handler id ⟨none, some "v", some "https://x", some "srk", none, none⟩
        ⟨"POST", none, none, none, none⟩ fetchesHit).1 =
      { status := 500, ok := some false, error := some "Missing environment variables" } :=
  ⟨by decide,
    (c10_config_error_precedence id ⟨none, some "v", some "https://x", some "srk", none, none⟩
      ⟨"POST", none, none, none, none⟩ fetchesHit rfl (by decide)).1⟩

end Narrate
